import Mathlib

/-!
Verification of the callback correlation layer of the MXU repository
(`src/components/connection/callbackCache.ts`).

The source maintains two JS `Map`s (`ctrlCallbackCache`, `resCallbackCache`)
keyed by integer correlation id with values `'succeeded' | 'failed'`.
A global listener (`startGlobalCallbackListener`, guarded by
`globalListenerStarted`) writes terminal outcomes into these maps and
schedules an unconditional `Map.delete` of the written key
`CACHE_CLEANUP_TIMEOUT = 30000` ms later.  `waitForCtrlResult` /
`waitForResResult` first check the map (consume-and-return on hit) and
otherwise poll it every 50 ms via `setInterval`, resolving `'failed'` at the
first tick whose elapsed time strictly exceeds the timeout.

The embedding models the JavaScript event loop explicitly: a time-ordered
queue of pending tasks (listener writes, scheduled cleanup deletions, wait
starts and poll ticks), processed one at a time — JS is single threaded, so
each callback body runs atomically.  Timers with equal expiry fire in the
order they were scheduled, which `enqueue` reproduces by inserting a new
task after all tasks of the same or earlier time.
-/

namespace MXU

/-- `CallbackResult` from the source: `'succeeded' | 'failed'`. -/
inductive CallbackResult where
  | succeeded
  | failed
deriving DecidableEq, Repr

/-- The two correlation-id namespaces of the source: controller actions
(`ctrlCallbackCache`) and resource loads (`resCallbackCache`). -/
inductive Ns where
  | ctrl
  | res
deriving DecidableEq, Repr

/-- A JS `Map<number, CallbackResult>` as an association list with unique
keys (maintained by the operations below from an empty start). -/
abbrev CacheMap := List (Nat × CallbackResult)

/-- JS `Map.get`: the value stored under `key`, if any. -/
def mapGet : CacheMap → Nat → Option CallbackResult
  | [], _ => none
  | (k, v) :: rest, key => if k = key then some v else mapGet rest key

/-- JS `Map.set`: overwrite the entry under `key` in place, or append it. -/
def mapSet : CacheMap → Nat → CallbackResult → CacheMap
  | [], key, v => [(key, v)]
  | (k, w) :: rest, key, v =>
    if k = key then (k, v) :: rest else (k, w) :: mapSet rest key v

/-- JS `Map.delete`: remove the entry under `key` (a no-op when absent). -/
def mapDelete (c : CacheMap) (key : Nat) : CacheMap :=
  c.filter (fun e => e.1 != key)

/-- `CACHE_CLEANUP_TIMEOUT` from the source: 30000 ms. -/
def CACHE_CLEANUP_TIMEOUT : Nat := 30000

/-- The fixed polling interval of the wait loops: `setInterval(..., 50)`. -/
def POLL_INTERVAL_MS : Nat := 50

/-- A pending event-loop task.  `write` is the listener's
`cache.set(id, outcome)` (followed by scheduling a cleanup); `cleanup` is
the `setTimeout(() => cache.delete(id), CACHE_CLEANUP_TIMEOUT)` callback;
`waitStart` is the synchronous body of `waitForCtrlResult` /
`waitForResResult` (immediate first check); `pollTick` is one firing of the
wait's `setInterval` callback, carrying the captured `startTime` and
`timeoutMs`. -/
inductive Task where
  | write (ns : Ns) (id : Nat) (outcome : CallbackResult)
  | cleanup (ns : Ns) (id : Nat)
  | waitStart (ns : Ns) (wid : Nat) (id : Nat) (timeoutMs : Nat)
  | pollTick (ns : Ns) (wid : Nat) (id : Nat) (startTime : Nat) (timeoutMs : Nat)
deriving DecidableEq, Repr

/-- An observed resolution of one wait: waiter `wid` for correlation id
`id` in namespace `ns` resolved at `time` with `outcome`; `viaMatch` is
`true` when the resolution consumed a cache entry (`resolve(result)` after
`cache.delete`) and `false` when it was the timeout branch
(`resolve('failed')`). -/
structure Resolution where
  wid : Nat
  ns : Ns
  id : Nat
  time : Nat
  outcome : CallbackResult
  viaMatch : Bool
deriving DecidableEq, Repr

/-- The modelled process state: the two module-level caches, the pending
event-loop task queue (time-ordered), and the log of wait resolutions. -/
structure SimState where
  ctrlCallbackCache : CacheMap
  resCallbackCache : CacheMap
  queue : List (Nat × Task)
  results : List Resolution
deriving DecidableEq, Repr

/-- The cache belonging to a namespace. -/
def SimState.cacheOf (st : SimState) : Ns → CacheMap
  | .ctrl => st.ctrlCallbackCache
  | .res => st.resCallbackCache

/-- Replace the cache belonging to a namespace. -/
def SimState.setCacheOf (st : SimState) : Ns → CacheMap → SimState
  | .ctrl, c => { st with ctrlCallbackCache := c }
  | .res, c => { st with resCallbackCache := c }

/-- Insert a task that fires at time `t` into the time-ordered queue,
after every task of the same or earlier time (JS timers with equal expiry
fire in scheduling order). -/
def enqueue : List (Nat × Task) → Nat → Task → List (Nat × Task)
  | [], t, task => [(t, task)]
  | (u, other) :: rest, t, task =>
    if t < u then (t, task) :: (u, other) :: rest
    else (u, other) :: enqueue rest t task

/-- Process the earliest pending task, mirroring the source line by line:
a listener write does `cache.set` and schedules a `cleanup` 30000 ms
later; a cleanup does `cache.delete`; a wait start consumes a present
entry immediately (`get` truthy, `delete`, `return cached`) or schedules
the first 50 ms poll tick; a poll tick consumes a present entry
(`clearInterval`, `delete`, `resolve(result)`), otherwise resolves
`'failed'` when `now - startTime > timeoutMs`, otherwise polls again
50 ms later. -/
def step (st : SimState) : SimState :=
  match st.queue with
  | [] => st
  | (t, task) :: rest =>
    match task with
    | .write ns id outcome =>
      let st' := st.setCacheOf ns (mapSet (st.cacheOf ns) id outcome)
      { st' with queue := enqueue rest (t + CACHE_CLEANUP_TIMEOUT) (.cleanup ns id) }
    | .cleanup ns id =>
      let st' := st.setCacheOf ns (mapDelete (st.cacheOf ns) id)
      { st' with queue := rest }
    | .waitStart ns wid id timeoutMs =>
      match mapGet (st.cacheOf ns) id with
      | some r =>
        let st' := st.setCacheOf ns (mapDelete (st.cacheOf ns) id)
        { st' with queue := rest,
                   results := st'.results ++ [⟨wid, ns, id, t, r, true⟩] }
      | none =>
        { st with queue := enqueue rest (t + POLL_INTERVAL_MS) (.pollTick ns wid id t timeoutMs) }
    | .pollTick ns wid id startTime timeoutMs =>
      match mapGet (st.cacheOf ns) id with
      | some r =>
        let st' := st.setCacheOf ns (mapDelete (st.cacheOf ns) id)
        { st' with queue := rest,
                   results := st'.results ++ [⟨wid, ns, id, t, r, true⟩] }
      | none =>
        if timeoutMs < t - startTime then
          { st with queue := rest,
                    results := st.results ++ [⟨wid, ns, id, t, .failed, false⟩] }
        else
          { st with queue := enqueue rest (t + POLL_INTERVAL_MS) (.pollTick ns wid id startTime timeoutMs) }

/-- Run the event loop for at most `fuel` steps (it stops early once the
queue is empty). -/
def run : Nat → SimState → SimState
  | 0, st => st
  | fuel + 1, st =>
    match st.queue with
    | [] => st
    | _ :: _ => run fuel (step st)

theorem run_queue_nil {st : SimState} (h : st.queue = []) : ∀ fuel, run fuel st = st := by
  intro fuel
  cases fuel with
  | zero => rfl
  | succ n => simp [run, h]

theorem run_add (a b : Nat) (st : SimState) : run (a + b) st = run b (run a st) := by
  induction a generalizing st with
  | zero => simp [run]
  | succ n ih =>
    cases hq : st.queue with
    | nil =>
      rw [run_queue_nil hq, run_queue_nil hq, run_queue_nil hq]
    | cons hd tl =>
      have h1 : run (n + 1 + b) st = run (n + b) (step st) := by
        simp [show n + 1 + b = (n + b) + 1 by omega, run, hq]
      have h2 : run (n + 1) st = run n (step st) := by simp [run, hq]
      rw [h1, ih, h2]

/-- Once a run has reached a quiescent state (empty queue), every larger
fuel yields the same state. -/
theorem run_stable {f fuel : Nat} {st final : SimState}
    (h : run f st = final) (hq : final.queue = []) (hf : f ≤ fuel) :
    run fuel st = final := by
  have : run fuel st = run (f + (fuel - f)) st := by congr 1; omega
  rw [this, run_add, h, run_queue_nil hq]

theorem mapGet_mapSet_self (c : CacheMap) (k : Nat) (v : CallbackResult) :
    mapGet (mapSet c k v) k = some v := by
  induction c with
  | nil => simp [mapSet, mapGet]
  | cons e rest ih =>
    by_cases h : e.1 = k
    · simp [mapSet, mapGet, h]
    · simp [mapSet, mapGet, h, ih]

theorem mapGet_mapSet_ne {c : CacheMap} {k j : Nat} {v : CallbackResult} (h : k ≠ j) :
    mapGet (mapSet c k v) j = mapGet c j := by
  induction c with
  | nil => simp [mapSet, mapGet, h]
  | cons e rest ih =>
    by_cases h1 : e.1 = k
    · simp [mapSet, mapGet, h1, h]
    · simp [mapSet, mapGet, h1, ih]

theorem mapGet_mapDelete_self (c : CacheMap) (k : Nat) :
    mapGet (mapDelete c k) k = none := by
  induction c with
  | nil => simp [mapDelete, mapGet]
  | cons e rest ih =>
    by_cases h : e.1 = k
    · simpa [mapDelete, h] using ih
    · simpa [mapDelete, mapGet, h] using ih

theorem mapGet_mapDelete_ne {c : CacheMap} {k j : Nat} (h : k ≠ j) :
    mapGet (mapDelete c k) j = mapGet c j := by
  induction c with
  | nil => simp [mapDelete]
  | cons e rest ih =>
    by_cases h1 : e.1 = k
    · have h3 : e.1 ≠ j := by omega
      have h4 : mapDelete (e :: rest) k = mapDelete rest k := by
        simp [mapDelete, h1]
      rw [h4, ih]
      simp [mapGet, h3]
    · have h4 : mapDelete (e :: rest) k = e :: mapDelete rest k := by
        simp [mapDelete, h1]
      rw [h4]
      by_cases h2 : e.1 = j
      · simp [mapGet, h2]
      · simp [mapGet, h2, ih]

theorem cacheOf_setCacheOf_self (st : SimState) (ns : Ns) (c : CacheMap) :
    (st.setCacheOf ns c).cacheOf ns = c := by
  cases ns <;> rfl

theorem cacheOf_setCacheOf_ne {st : SimState} {ns ns' : Ns} {c : CacheMap} (h : ns' ≠ ns) :
    (st.setCacheOf ns' c).cacheOf ns = st.cacheOf ns := by
  cases ns' <;> cases ns <;> simp_all <;> rfl

theorem queue_setCacheOf (st : SimState) (ns : Ns) (c : CacheMap) :
    (st.setCacheOf ns c).queue = st.queue := by
  cases ns <;> rfl

theorem results_setCacheOf (st : SimState) (ns : Ns) (c : CacheMap) :
    (st.setCacheOf ns c).results = st.results := by
  cases ns <;> rfl

/-- C1. When the wait's very first synchronous check finds a terminal
outcome already stored for its correlation id, the wait resolves right
there (at the call's own time `t`, with `viaMatch = true`), deletes the
entry, and schedules no poll tick: the queue keeps only the tasks that
were already pending. -/
theorem wait_hit_on_first_check (st : SimState) (t : Nat) (ns : Ns)
    (wid id timeoutMs : Nat) (r : CallbackResult) (rest : List (Nat × Task))
    (hq : st.queue = (t, Task.waitStart ns wid id timeoutMs) :: rest)
    (hc : mapGet (st.cacheOf ns) id = some r) :
    (step st).results = st.results ++ [⟨wid, ns, id, t, r, true⟩] ∧
    mapGet ((step st).cacheOf ns) id = none ∧
    (step st).queue = rest := by
  have hstep : step st =
      { st.setCacheOf ns (mapDelete (st.cacheOf ns) id) with
        queue := rest,
        results := (st.setCacheOf ns (mapDelete (st.cacheOf ns) id)).results
          ++ [⟨wid, ns, id, t, r, true⟩] } := by
    simp [step, hq, hc]
  rw [hstep]
  refine ⟨by simp [results_setCacheOf], ?_, rfl⟩
  have : ({ st.setCacheOf ns (mapDelete (st.cacheOf ns) id) with
      queue := rest,
      results := (st.setCacheOf ns (mapDelete (st.cacheOf ns) id)).results
        ++ [⟨wid, ns, id, t, r, true⟩] } : SimState).cacheOf ns
      = (st.setCacheOf ns (mapDelete (st.cacheOf ns) id)).cacheOf ns := by
    cases ns <;> rfl
  rw [this, cacheOf_setCacheOf_self, mapGet_mapDelete_self]

/-- C1 witness: concrete instance of `wait_hit_on_first_check` — a
`succeeded` entry for id 5 is already cached when the wait is called at
time 100. -/
theorem wait_hit_on_first_check_witness :
    (step ⟨[(5, .succeeded)], [], [(100, Task.waitStart .ctrl 7 5 30000)], []⟩).results
      = [] ++ [⟨7, .ctrl, 5, 100, .succeeded, true⟩] ∧
    mapGet ((step ⟨[(5, .succeeded)], [], [(100, Task.waitStart .ctrl 7 5 30000)], []⟩).cacheOf .ctrl) 5
      = none ∧
    (step ⟨[(5, .succeeded)], [], [(100, Task.waitStart .ctrl 7 5 30000)], []⟩).queue = [] :=
  wait_hit_on_first_check ⟨[(5, .succeeded)], [], [(100, Task.waitStart .ctrl 7 5 30000)], []⟩
    100 .ctrl 7 5 30000 .succeeded [] rfl rfl

/-- C6. A single listener write at time `t1`, with no wait ever consuming
it: immediately after the write the entry is present and exactly one
cleanup task for that key is pending, timed `CACHE_CLEANUP_TIMEOUT`
(30000 ms) after the insertion; once that task fires the entry is gone and
the loop is quiescent — so an unconsumed entry lives no longer than the
retention window. -/
theorem unconsumed_entry_removed_by_retention (ns : Ns) (t1 id : Nat) (o : CallbackResult) :
    mapGet ((run 1 ⟨[], [], [(t1, Task.write ns id o)], []⟩).cacheOf ns) id = some o ∧
    (run 1 ⟨[], [], [(t1, Task.write ns id o)], []⟩).queue
      = [(t1 + CACHE_CLEANUP_TIMEOUT, Task.cleanup ns id)] ∧
    mapGet ((run 2 ⟨[], [], [(t1, Task.write ns id o)], []⟩).cacheOf ns) id = none ∧
    (run 2 ⟨[], [], [(t1, Task.write ns id o)], []⟩).queue = [] := by
  cases ns <;>
    simp [run, step, enqueue, SimState.cacheOf, SimState.setCacheOf,
      mapSet, mapGet, mapDelete]

/-- C10. Two listener writes for the same id at `t1 < t2 < t1 + 30000`,
never consumed: after both writes the table holds only the second outcome,
but two cleanup tasks are pending — the stale one from the first write
fires at `t1 + 30000` and deletes the key, so the second outcome is
removed at `t1 + 30000`, strictly earlier than `t2 + 30000` (30 s after
its own insertion). -/
theorem stale_timer_deletes_overwritten_entry (ns : Ns) (t1 t2 id : Nat)
    (o1 o2 : CallbackResult) (h12 : t1 < t2) (h2c : t2 < t1 + CACHE_CLEANUP_TIMEOUT) :
    ((run 2 ⟨[], [], [(t1, Task.write ns id o1), (t2, Task.write ns id o2)], []⟩).cacheOf ns)
      = [(id, o2)] ∧
    (run 2 ⟨[], [], [(t1, Task.write ns id o1), (t2, Task.write ns id o2)], []⟩).queue
      = [(t1 + CACHE_CLEANUP_TIMEOUT, Task.cleanup ns id),
         (t2 + CACHE_CLEANUP_TIMEOUT, Task.cleanup ns id)] ∧
    mapGet ((run 3 ⟨[], [], [(t1, Task.write ns id o1), (t2, Task.write ns id o2)], []⟩).cacheOf ns) id
      = none ∧
    (run 3 ⟨[], [], [(t1, Task.write ns id o1), (t2, Task.write ns id o2)], []⟩).queue
      = [(t2 + CACHE_CLEANUP_TIMEOUT, Task.cleanup ns id)] ∧
    t1 + CACHE_CLEANUP_TIMEOUT < t2 + CACHE_CLEANUP_TIMEOUT := by
  have hA : ¬ (t1 + CACHE_CLEANUP_TIMEOUT < t2) := by omega
  have hB : ¬ (t2 + CACHE_CLEANUP_TIMEOUT < t1 + CACHE_CLEANUP_TIMEOUT) := by omega
  cases ns <;>
    simp [run, step, enqueue, SimState.cacheOf, SimState.setCacheOf,
      mapSet, mapGet, mapDelete, hA, hB] <;> omega

/-- C10 witness: writes at times 0 and 10000; the second outcome is
deleted at 30000, earlier than 40000. -/
theorem stale_timer_deletes_overwritten_entry_witness :
    ((run 2 ⟨[], [], [(0, Task.write .res 4 .succeeded), (10000, Task.write .res 4 .failed)], []⟩).cacheOf .res)
      = [(4, .failed)] ∧
    (run 2 ⟨[], [], [(0, Task.write .res 4 .succeeded), (10000, Task.write .res 4 .failed)], []⟩).queue
      = [(0 + CACHE_CLEANUP_TIMEOUT, Task.cleanup .res 4),
         (10000 + CACHE_CLEANUP_TIMEOUT, Task.cleanup .res 4)] ∧
    mapGet ((run 3 ⟨[], [], [(0, Task.write .res 4 .succeeded), (10000, Task.write .res 4 .failed)], []⟩).cacheOf .res) 4
      = none ∧
    (run 3 ⟨[], [], [(0, Task.write .res 4 .succeeded), (10000, Task.write .res 4 .failed)], []⟩).queue
      = [(10000 + CACHE_CLEANUP_TIMEOUT, Task.cleanup .res 4)] ∧
    0 + CACHE_CLEANUP_TIMEOUT < 10000 + CACHE_CLEANUP_TIMEOUT :=
  stale_timer_deletes_overwritten_entry .res 0 10000 4 .succeeded .failed
    (by decide) (by decide)

/-- C5. Two listener writes for the same id before any wait runs
(`t1 < t2 < t3 ≤ t1 + 30000`): after the second write the table holds
exactly one entry for the id — the most recent outcome — and the wait at
`t3` consumes and returns that second outcome. -/
theorem second_write_overwrites_first (ns : Ns) (t1 t2 t3 wid id timeoutMs : Nat)
    (o1 o2 : CallbackResult) (h12 : t1 < t2) (h23 : t2 < t3)
    (h3c : t3 ≤ t1 + CACHE_CLEANUP_TIMEOUT) :
    ((run 2 ⟨[], [], [(t1, Task.write ns id o1), (t2, Task.write ns id o2),
        (t3, Task.waitStart ns wid id timeoutMs)], []⟩).cacheOf ns) = [(id, o2)] ∧
    (run 3 ⟨[], [], [(t1, Task.write ns id o1), (t2, Task.write ns id o2),
        (t3, Task.waitStart ns wid id timeoutMs)], []⟩).results
      = [⟨wid, ns, id, t3, o2, true⟩] := by
  have hA : ¬ (t1 + CACHE_CLEANUP_TIMEOUT < t2) := by omega
  have hB : ¬ (t1 + CACHE_CLEANUP_TIMEOUT < t3) := by omega
  have hC : ¬ (t2 + CACHE_CLEANUP_TIMEOUT < t3) := by omega
  have hD : ¬ (t2 + CACHE_CLEANUP_TIMEOUT < t1 + CACHE_CLEANUP_TIMEOUT) := by omega
  cases ns <;>
    simp [run, step, enqueue, SimState.cacheOf, SimState.setCacheOf,
      mapSet, mapGet, mapDelete, hA, hB, hC, hD]

/-- C5 witness: writes `succeeded` then `failed` for id 9 at times 0 and
100; the wait at time 200 returns the second outcome `failed`. -/
theorem second_write_overwrites_first_witness :
    ((run 2 ⟨[], [], [(0, Task.write .ctrl 9 .succeeded), (100, Task.write .ctrl 9 .failed),
        (200, Task.waitStart .ctrl 3 9 30000)], []⟩).cacheOf .ctrl) = [(9, .failed)] ∧
    (run 3 ⟨[], [], [(0, Task.write .ctrl 9 .succeeded), (100, Task.write .ctrl 9 .failed),
        (200, Task.waitStart .ctrl 3 9 30000)], []⟩).results
      = [⟨3, .ctrl, 9, 200, .failed, true⟩] :=
  second_write_overwrites_first .ctrl 0 100 200 3 9 30000 .succeeded .failed
    (by decide) (by decide) (by decide)

theorem cacheOf_mk_nil (ns : Ns) (q : List (Nat × Task)) (rs : List Resolution) :
    (SimState.mk [] [] q rs).cacheOf ns = [] := by
  cases ns <;> rfl

/-- The state of a pending wait that has found nothing yet and received no
write: both caches empty, one poll tick pending at time `u`. -/
def pollState (ns : Ns) (wid id u t0 timeoutMs : Nat) : SimState :=
  ⟨[], [], [(u, Task.pollTick ns wid id t0 timeoutMs)], []⟩

/-- The quiescent state of a wait resolved `failed` by the timeout branch
at time `tr`. -/
def timedOutState (ns : Ns) (wid id tr : Nat) : SimState :=
  ⟨[], [], [], [⟨wid, ns, id, tr, .failed, false⟩]⟩

theorem timeout_loop (ns : Ns) (wid id t0 timeoutMs : Nat) :
    ∀ m u, t0 < u → u - t0 ≤ timeoutMs + 50 →
      t0 + timeoutMs < u + 50 * m →
      ∃ f tr, t0 + timeoutMs < tr ∧ tr ≤ t0 + timeoutMs + 50 ∧
        run f (pollState ns wid id u t0 timeoutMs) = timedOutState ns wid id tr := by
  intro m
  induction m with
  | zero =>
    intro u h1 h2 h3
    refine ⟨1, u, by omega, by omega, ?_⟩
    have hT : timeoutMs < u - t0 := by omega
    simp [run, step, pollState, timedOutState, cacheOf_mk_nil, mapGet, hT]
  | succ k ih =>
    intro u h1 h2 h3
    by_cases hT : timeoutMs < u - t0
    · refine ⟨1, u, by omega, by omega, ?_⟩
      simp [run, step, pollState, timedOutState, cacheOf_mk_nil, mapGet, hT]
    · have hstep : step (pollState ns wid id u t0 timeoutMs)
          = pollState ns wid id (u + 50) t0 timeoutMs := by
        simp [step, pollState, cacheOf_mk_nil, mapGet, hT, enqueue, POLL_INTERVAL_MS]
      obtain ⟨f, tr, ha, hb, hrun⟩ := ih (u + 50) (by omega) (by omega) (by omega)
      refine ⟨f + 1, tr, ha, hb, ?_⟩
      have : run (f + 1) (pollState ns wid id u t0 timeoutMs)
          = run f (step (pollState ns wid id u t0 timeoutMs)) := by
        simp [run, pollState]
      rw [this, hstep, hrun]

/-- C3. A wait whose correlation id never receives any terminal
notification resolves through the timeout branch with outcome `failed`
(the same `CallbackResult` value as a genuine failure — no distinct
timeout kind), at a poll tick strictly later than `timeoutMs` after the
start and no later than `timeoutMs` plus one 50 ms polling interval. -/
theorem unmatched_wait_times_out_failed (ns : Ns) (wid id t0 timeoutMs : Nat) :
    ∃ f tr, t0 + timeoutMs < tr ∧ tr ≤ t0 + timeoutMs + POLL_INTERVAL_MS ∧
      ∀ fuel, f ≤ fuel →
        run fuel ⟨[], [], [(t0, Task.waitStart ns wid id timeoutMs)], []⟩
          = timedOutState ns wid id tr := by
  obtain ⟨f, tr, h1, h2, hrun⟩ :=
    timeout_loop ns wid id t0 timeoutMs (timeoutMs + 1) (t0 + 50)
      (by omega) (by omega) (by omega)
  refine ⟨f + 1, tr, h1, by simpa [POLL_INTERVAL_MS] using h2, ?_⟩
  intro fuel hf
  have hstep : step ⟨[], [], [(t0, Task.waitStart ns wid id timeoutMs)], []⟩
      = pollState ns wid id (t0 + 50) t0 timeoutMs := by
    simp [step, pollState, cacheOf_mk_nil, mapGet, enqueue, POLL_INTERVAL_MS]
  have hrun1 : run (f + 1) ⟨[], [], [(t0, Task.waitStart ns wid id timeoutMs)], []⟩
      = timedOutState ns wid id tr := by
    have : run (f + 1) ⟨[], [], [(t0, Task.waitStart ns wid id timeoutMs)], []⟩
        = run f (step ⟨[], [], [(t0, Task.waitStart ns wid id timeoutMs)], []⟩) := by
      simp [run]
    rw [this, hstep, hrun]
  exact run_stable hrun1 rfl hf

/-- A pending wait polling at `u` with the listener's write for the same
id still due at `tw` (`u` earlier than `tw`). -/
def pollBeforeWriteState (ns : Ns) (wid id u t0 timeoutMs tw : Nat) (o : CallbackResult) : SimState :=
  ⟨[], [], [(u, Task.pollTick ns wid id t0 timeoutMs), (tw, Task.write ns id o)], []⟩

/-- The write at `tw` is now due before the next poll tick at `u`. -/
def writeBeforePollState (ns : Ns) (wid id u t0 timeoutMs tw : Nat) (o : CallbackResult) : SimState :=
  ⟨[], [], [(tw, Task.write ns id o), (u, Task.pollTick ns wid id t0 timeoutMs)], []⟩

/-- The quiescent state of a wait that consumed outcome `o` at time `tr`. -/
def matchedState (ns : Ns) (wid id tr : Nat) (o : CallbackResult) : SimState :=
  ⟨[], [], [], [⟨wid, ns, id, tr, o, true⟩]⟩

theorem write_then_poll_matches (ns : Ns) (wid id u t0 timeoutMs tw : Nat)
    (o : CallbackResult) (hu : u < tw + CACHE_CLEANUP_TIMEOUT) :
    run 3 (writeBeforePollState ns wid id u t0 timeoutMs tw o)
      = matchedState ns wid id u o := by
  have hA : ¬ (tw + CACHE_CLEANUP_TIMEOUT < u) := by omega
  cases ns <;>
    simp [run, step, writeBeforePollState, matchedState, SimState.cacheOf,
      SimState.setCacheOf, enqueue, mapSet, mapGet, mapDelete, hA]

theorem poll_until_write (ns : Ns) (wid id t0 timeoutMs tw : Nat) (o : CallbackResult) :
    ∀ m u, t0 < u → u < tw → tw ≤ t0 + timeoutMs → tw ≤ u + 50 * m →
      ∃ f tr, tw ≤ tr ∧ tr < tw + 50 ∧
        run f (pollBeforeWriteState ns wid id u t0 timeoutMs tw o)
          = matchedState ns wid id tr o := by
  intro m
  induction m with
  | zero =>
    intro u h1 h2 h3 h4
    omega
  | succ k ih =>
    intro u h1 h2 h3 h4
    have hT : ¬ (timeoutMs < u - t0) := by omega
    by_cases hnext : u + 50 < tw
    · have hstep : step (pollBeforeWriteState ns wid id u t0 timeoutMs tw o)
          = pollBeforeWriteState ns wid id (u + 50) t0 timeoutMs tw o := by
        simp [step, pollBeforeWriteState, cacheOf_mk_nil, mapGet, hT, enqueue,
          POLL_INTERVAL_MS, hnext]
      obtain ⟨f, tr, ha, hb, hrun⟩ := ih (u + 50) (by omega) hnext h3 (by omega)
      refine ⟨f + 1, tr, ha, hb, ?_⟩
      have : run (f + 1) (pollBeforeWriteState ns wid id u t0 timeoutMs tw o)
          = run f (step (pollBeforeWriteState ns wid id u t0 timeoutMs tw o)) := by
        simp [run, pollBeforeWriteState]
      rw [this, hstep, hrun]
    · have hstep : step (pollBeforeWriteState ns wid id u t0 timeoutMs tw o)
          = writeBeforePollState ns wid id (u + 50) t0 timeoutMs tw o := by
        simp [step, pollBeforeWriteState, writeBeforePollState, cacheOf_mk_nil,
          mapGet, hT, enqueue, POLL_INTERVAL_MS, hnext]
      refine ⟨3 + 1, u + 50, by omega, by omega, ?_⟩
      have : run (3 + 1) (pollBeforeWriteState ns wid id u t0 timeoutMs tw o)
          = run 3 (step (pollBeforeWriteState ns wid id u t0 timeoutMs tw o)) := by
        simp [run, pollBeforeWriteState]
      rw [this, hstep,
        write_then_poll_matches ns wid id (u + 50) t0 timeoutMs tw o
          (by simp [CACHE_CLEANUP_TIMEOUT]; omega)]

/-- C2. A wait that starts at `t0` while the table has no entry for its
id, followed by a single listener write of outcome `o` at `tw` within the
timeout window (`t0 < tw ≤ t0 + timeoutMs`): the wait resolves with `o`
(via a consuming match, not the timeout branch) at the first poll tick at
or after `tw`, hence strictly less than one 50 ms interval after the
write. -/
theorem wait_catches_later_write (ns : Ns) (wid id t0 tw timeoutMs : Nat)
    (o : CallbackResult) (h1 : t0 < tw) (h2 : tw ≤ t0 + timeoutMs) :
    ∃ f tr, tw ≤ tr ∧ tr < tw + POLL_INTERVAL_MS ∧
      ∀ fuel, f ≤ fuel →
        run fuel ⟨[], [], [(t0, Task.waitStart ns wid id timeoutMs),
            (tw, Task.write ns id o)], []⟩
          = matchedState ns wid id tr o := by
  by_cases hnext : t0 + 50 < tw
  · have hstep : step ⟨[], [], [(t0, Task.waitStart ns wid id timeoutMs),
        (tw, Task.write ns id o)], []⟩
        = pollBeforeWriteState ns wid id (t0 + 50) t0 timeoutMs tw o := by
      simp [step, pollBeforeWriteState, cacheOf_mk_nil, mapGet, enqueue,
        POLL_INTERVAL_MS, hnext]
    obtain ⟨f, tr, ha, hb, hrun⟩ :=
      poll_until_write ns wid id t0 timeoutMs tw o tw (t0 + 50)
        (by omega) hnext h2 (by omega)
    refine ⟨f + 1, tr, ha, by simpa [POLL_INTERVAL_MS] using hb, ?_⟩
    intro fuel hf
    have hrun1 : run (f + 1) ⟨[], [], [(t0, Task.waitStart ns wid id timeoutMs),
        (tw, Task.write ns id o)], []⟩ = matchedState ns wid id tr o := by
      have : run (f + 1) ⟨[], [], [(t0, Task.waitStart ns wid id timeoutMs),
          (tw, Task.write ns id o)], []⟩
          = run f (step ⟨[], [], [(t0, Task.waitStart ns wid id timeoutMs),
            (tw, Task.write ns id o)], []⟩) := by
        simp [run]
      rw [this, hstep, hrun]
    exact run_stable hrun1 rfl hf
  · have hstep : step ⟨[], [], [(t0, Task.waitStart ns wid id timeoutMs),
        (tw, Task.write ns id o)], []⟩
        = writeBeforePollState ns wid id (t0 + 50) t0 timeoutMs tw o := by
      simp [step, writeBeforePollState, cacheOf_mk_nil, mapGet, enqueue,
        POLL_INTERVAL_MS, hnext]
    refine ⟨3 + 1, t0 + 50, by omega, by simp [POLL_INTERVAL_MS]; omega, ?_⟩
    intro fuel hf
    have hrun1 : run (3 + 1) ⟨[], [], [(t0, Task.waitStart ns wid id timeoutMs),
        (tw, Task.write ns id o)], []⟩ = matchedState ns wid id (t0 + 50) o := by
      have : run (3 + 1) ⟨[], [], [(t0, Task.waitStart ns wid id timeoutMs),
          (tw, Task.write ns id o)], []⟩
          = run 3 (step ⟨[], [], [(t0, Task.waitStart ns wid id timeoutMs),
            (tw, Task.write ns id o)], []⟩) := by
        simp [run]
      rw [this, hstep,
        write_then_poll_matches ns wid id (t0 + 50) t0 timeoutMs tw o
          (by simp [CACHE_CLEANUP_TIMEOUT]; omega)]
    exact run_stable hrun1 rfl hf

/-- C2 witness: wait starts at 0 with timeout 300; the write of
`succeeded` for id 2 lands at 120; the wait resolves with it. -/
theorem wait_catches_later_write_witness :
    ∃ f tr, 120 ≤ tr ∧ tr < 120 + POLL_INTERVAL_MS ∧
      ∀ fuel, f ≤ fuel →
        run fuel ⟨[], [], [(0, Task.waitStart .res 1 2 300),
            (120, Task.write .res 2 .succeeded)], []⟩
          = matchedState .res 1 2 tr .succeeded :=
  wait_catches_later_write .res 1 2 0 120 300 .succeeded (by decide) (by decide)

/-- Does this resolution consume a cache entry of namespace `ns` under
correlation id `id`?  (`viaMatch` rules out the timeout branch.) -/
def isMatchFor (ns : Ns) (id : Nat) (r : Resolution) : Bool :=
  r.viaMatch && r.ns == ns && r.id == id

/-- How many resolutions in the log consumed an entry for `(ns, id)`. -/
def matchCount (ns : Ns) (id : Nat) (rs : List Resolution) : Nat :=
  rs.countP (isMatchFor ns id)

/-- Is this pending task a listener write for `(ns, id)`? -/
def isWriteFor (ns : Ns) (id : Nat) (e : Nat × Task) : Bool :=
  match e.2 with
  | .write ns' id' _ => ns' == ns && id' == id
  | _ => false

/-- How many listener writes for `(ns, id)` are still pending. -/
def writeCount (ns : Ns) (id : Nat) (q : List (Nat × Task)) : Nat :=
  q.countP (isWriteFor ns id)

/-- 1 when the table of `ns` currently holds an entry for `id`. -/
def presentBit (ns : Ns) (id : Nat) (st : SimState) : Nat :=
  if (mapGet (st.cacheOf ns) id).isSome then 1 else 0

/-- Consumptions so far, plus the live entry, plus writes still to come:
never increases along the event loop. -/
def potential (ns : Ns) (id : Nat) (st : SimState) : Nat :=
  matchCount ns id st.results + presentBit ns id st + writeCount ns id st.queue

theorem countP_enqueue (p : Nat × Task → Bool) (q : List (Nat × Task)) (t : Nat) (task : Task) :
    (enqueue q t task).countP p = q.countP p + (if p (t, task) then 1 else 0) := by
  induction q with
  | nil => simp [enqueue, List.countP_cons]
  | cons e rest ih =>
    by_cases h : t < e.1
    · simp [enqueue, h, List.countP_cons]
      try omega
    · simp [enqueue, h, List.countP_cons, ih]
      try omega

theorem presentBit_le_one (ns : Ns) (id : Nat) (st : SimState) :
    presentBit ns id st ≤ 1 := by
  simp only [presentBit]
  split <;> omega

theorem step_potential (ns : Ns) (id : Nat) (st : SimState) :
    potential ns id (step st) ≤ potential ns id st := by
  cases hq : st.queue with
  | nil => simp [step, hq]
  | cons hd rest =>
    obtain ⟨t, task⟩ := hd
    cases task with
    | write ns' id' o =>
      have hres : (step st).results = st.results := by
        simp [step, hq, results_setCacheOf]
      have hqu : (step st).queue
          = enqueue rest (t + CACHE_CLEANUP_TIMEOUT) (Task.cleanup ns' id') := by
        simp [step, hq]
      have hcache : (step st).cacheOf ns
          = (st.setCacheOf ns' (mapSet (st.cacheOf ns') id' o)).cacheOf ns := by
        cases ns <;> cases ns' <;> simp [step, hq, SimState.cacheOf, SimState.setCacheOf]
      have hw : writeCount ns id (step st).queue = writeCount ns id rest := by
        rw [hqu]
        simp [writeCount, countP_enqueue, isWriteFor]
      by_cases hns : ns = ns'
      · subst hns
        by_cases hid : id = id'
        · subst hid
          have hhead : isWriteFor ns id (t, Task.write ns id o) = true := by
            simp [isWriteFor]
          have hwq : writeCount ns id st.queue = writeCount ns id rest + 1 := by
            rw [hq]
            simp [writeCount, List.countP_cons, hhead]
          have hp := presentBit_le_one ns id (step st)
          unfold potential
          rw [hres, hw, hwq]
          omega
        · have hhead : isWriteFor ns id (t, Task.write ns id' o) = false := by
            simp [isWriteFor, beq_iff_eq, Ne.symm hid]
          have hwq : writeCount ns id st.queue = writeCount ns id rest := by
            rw [hq]
            simp [writeCount, List.countP_cons, hhead]
          have hpres : presentBit ns id (step st) = presentBit ns id st := by
            simp [presentBit, hcache, cacheOf_setCacheOf_self, mapGet_mapSet_ne (Ne.symm hid)]
          unfold potential
          rw [hres, hw, hwq, hpres]
      · have hhead : isWriteFor ns id (t, Task.write ns' id' o) = false := by
          simp [isWriteFor, beq_iff_eq, Ne.symm hns]
        have hwq : writeCount ns id st.queue = writeCount ns id rest := by
          rw [hq]
          simp [writeCount, List.countP_cons, hhead]
        have hpres : presentBit ns id (step st) = presentBit ns id st := by
          simp [presentBit, hcache, cacheOf_setCacheOf_ne (Ne.symm hns)]
        unfold potential
        rw [hres, hw, hwq, hpres]
    | cleanup ns' id' =>
      have hres : (step st).results = st.results := by
        simp [step, hq, results_setCacheOf]
      have hqu : (step st).queue = rest := by
        simp [step, hq, queue_setCacheOf]
      have hcache : (step st).cacheOf ns
          = (st.setCacheOf ns' (mapDelete (st.cacheOf ns') id')).cacheOf ns := by
        cases ns <;> cases ns' <;> simp [step, hq, SimState.cacheOf, SimState.setCacheOf]
      have hhead : isWriteFor ns id (t, Task.cleanup ns' id') = false := by
        simp [isWriteFor]
      have hwq : writeCount ns id st.queue = writeCount ns id rest := by
        rw [hq]
        simp [writeCount, List.countP_cons, hhead]
      have hpres : presentBit ns id (step st) ≤ presentBit ns id st := by
        by_cases hns : ns = ns'
        · subst hns
          by_cases hid : id = id'
          · subst hid
            simp [presentBit, hcache, cacheOf_setCacheOf_self, mapGet_mapDelete_self]
          · simp [presentBit, hcache, cacheOf_setCacheOf_self,
              mapGet_mapDelete_ne (Ne.symm hid)]
        · simp [presentBit, hcache, cacheOf_setCacheOf_ne (Ne.symm hns)]
      unfold potential
      rw [hres, hqu, hwq]
      omega
    | waitStart ns' wid id' timeoutMs =>
      cases hc : mapGet (st.cacheOf ns') id' with
      | some r =>
        have hres : (step st).results = st.results ++ [⟨wid, ns', id', t, r, true⟩] := by
          simp [step, hq, hc, results_setCacheOf]
        have hqu : (step st).queue = rest := by
          simp [step, hq, hc, queue_setCacheOf]
        have hcache : (step st).cacheOf ns
            = (st.setCacheOf ns' (mapDelete (st.cacheOf ns') id')).cacheOf ns := by
          cases ns' <;> cases ns <;>
            (simp only [SimState.cacheOf] at hc;
             simp [step, hq, hc, SimState.cacheOf, SimState.setCacheOf])
        have hhead : isWriteFor ns id (t, Task.waitStart ns' wid id' timeoutMs) = false := by
          simp [isWriteFor]
        have hwq : writeCount ns id st.queue = writeCount ns id rest := by
          rw [hq]
          simp [writeCount, List.countP_cons, hhead]
        by_cases hns : ns = ns'
        · subst hns
          by_cases hid : id = id'
          · subst hid
            have hmc1 : matchCount ns id (step st).results
                = matchCount ns id st.results + 1 := by
              rw [hres]
              simp [matchCount, List.countP_append, isMatchFor]
            have hpres0 : presentBit ns id (step st) = 0 := by
              simp [presentBit, hcache, cacheOf_setCacheOf_self, mapGet_mapDelete_self]
            have hpres1 : presentBit ns id st = 1 := by
              simp [presentBit, hc]
            unfold potential
            rw [hmc1, hqu, hwq, hpres0, hpres1]
          · have hmc0 : matchCount ns id (step st).results
                = matchCount ns id st.results := by
              rw [hres]
              simp [matchCount, List.countP_append, isMatchFor, beq_iff_eq, Ne.symm hid]
            have hpres : presentBit ns id (step st) = presentBit ns id st := by
              simp [presentBit, hcache, cacheOf_setCacheOf_self,
                mapGet_mapDelete_ne (Ne.symm hid)]
            unfold potential
            rw [hmc0, hqu, hwq, hpres]
        · have hmc0 : matchCount ns id (step st).results
              = matchCount ns id st.results := by
            rw [hres]
            simp [matchCount, List.countP_append, isMatchFor, beq_iff_eq, Ne.symm hns]
          have hpres : presentBit ns id (step st) = presentBit ns id st := by
            simp [presentBit, hcache, cacheOf_setCacheOf_ne (Ne.symm hns)]
          unfold potential
          rw [hmc0, hqu, hwq, hpres]
      | none =>
        have hres : (step st).results = st.results := by
          simp [step, hq, hc]
        have hqu : (step st).queue
            = enqueue rest (t + POLL_INTERVAL_MS) (Task.pollTick ns' wid id' t timeoutMs) := by
          simp [step, hq, hc]
        have hcache : (step st).cacheOf ns = st.cacheOf ns := by
          cases ns' <;> cases ns <;>
            (simp only [SimState.cacheOf] at hc;
             simp [step, hq, hc, SimState.cacheOf])
        have hpres : presentBit ns id (step st) = presentBit ns id st := by
          simp [presentBit, hcache]
        have hw : writeCount ns id (step st).queue = writeCount ns id rest := by
          rw [hqu]
          simp [writeCount, countP_enqueue, isWriteFor]
        have hhead : isWriteFor ns id (t, Task.waitStart ns' wid id' timeoutMs) = false := by
          simp [isWriteFor]
        have hwq : writeCount ns id st.queue = writeCount ns id rest := by
          rw [hq]
          simp [writeCount, List.countP_cons, hhead]
        unfold potential
        rw [hres, hw, hwq, hpres]
    | pollTick ns' wid id' startTime timeoutMs =>
      cases hc : mapGet (st.cacheOf ns') id' with
      | some r =>
        have hres : (step st).results = st.results ++ [⟨wid, ns', id', t, r, true⟩] := by
          simp [step, hq, hc, results_setCacheOf]
        have hqu : (step st).queue = rest := by
          simp [step, hq, hc, queue_setCacheOf]
        have hcache : (step st).cacheOf ns
            = (st.setCacheOf ns' (mapDelete (st.cacheOf ns') id')).cacheOf ns := by
          cases ns' <;> cases ns <;>
            (simp only [SimState.cacheOf] at hc;
             simp [step, hq, hc, SimState.cacheOf, SimState.setCacheOf])
        have hhead : isWriteFor ns id (t, Task.pollTick ns' wid id' startTime timeoutMs)
            = false := by
          simp [isWriteFor]
        have hwq : writeCount ns id st.queue = writeCount ns id rest := by
          rw [hq]
          simp [writeCount, List.countP_cons, hhead]
        by_cases hns : ns = ns'
        · subst hns
          by_cases hid : id = id'
          · subst hid
            have hmc1 : matchCount ns id (step st).results
                = matchCount ns id st.results + 1 := by
              rw [hres]
              simp [matchCount, List.countP_append, isMatchFor]
            have hpres0 : presentBit ns id (step st) = 0 := by
              simp [presentBit, hcache, cacheOf_setCacheOf_self, mapGet_mapDelete_self]
            have hpres1 : presentBit ns id st = 1 := by
              simp [presentBit, hc]
            unfold potential
            rw [hmc1, hqu, hwq, hpres0, hpres1]
          · have hmc0 : matchCount ns id (step st).results
                = matchCount ns id st.results := by
              rw [hres]
              simp [matchCount, List.countP_append, isMatchFor, beq_iff_eq, Ne.symm hid]
            have hpres : presentBit ns id (step st) = presentBit ns id st := by
              simp [presentBit, hcache, cacheOf_setCacheOf_self,
                mapGet_mapDelete_ne (Ne.symm hid)]
            unfold potential
            rw [hmc0, hqu, hwq, hpres]
        · have hmc0 : matchCount ns id (step st).results
              = matchCount ns id st.results := by
            rw [hres]
            simp [matchCount, List.countP_append, isMatchFor, beq_iff_eq, Ne.symm hns]
          have hpres : presentBit ns id (step st) = presentBit ns id st := by
            simp [presentBit, hcache, cacheOf_setCacheOf_ne (Ne.symm hns)]
          unfold potential
          rw [hmc0, hqu, hwq, hpres]
      | none =>
        by_cases hT : timeoutMs < t - startTime
        · have hres : (step st).results
              = st.results ++ [⟨wid, ns', id', t, .failed, false⟩] := by
            simp [step, hq, hc, hT]
          have hqu : (step st).queue = rest := by
            simp [step, hq, hc, hT]
          have hcache : (step st).cacheOf ns = st.cacheOf ns := by
            cases ns' <;> cases ns <;>
              (simp only [SimState.cacheOf] at hc;
               simp [step, hq, hc, hT, SimState.cacheOf])
          have hpres : presentBit ns id (step st) = presentBit ns id st := by
            simp [presentBit, hcache]
          have hmc0 : matchCount ns id (step st).results = matchCount ns id st.results := by
            rw [hres]
            simp [matchCount, List.countP_append, isMatchFor]
          have hhead : isWriteFor ns id (t, Task.pollTick ns' wid id' startTime timeoutMs)
              = false := by
            simp [isWriteFor]
          have hwq : writeCount ns id st.queue = writeCount ns id rest := by
            rw [hq]
            simp [writeCount, List.countP_cons, hhead]
          unfold potential
          rw [hmc0, hqu, hwq, hpres]
        · have hres : (step st).results = st.results := by
            simp [step, hq, hc, hT]
          have hqu : (step st).queue
              = enqueue rest (t + POLL_INTERVAL_MS)
                (Task.pollTick ns' wid id' startTime timeoutMs) := by
            simp [step, hq, hc, hT]
          have hcache : (step st).cacheOf ns = st.cacheOf ns := by
            cases ns' <;> cases ns <;>
              (simp only [SimState.cacheOf] at hc;
               simp [step, hq, hc, hT, SimState.cacheOf])
          have hpres : presentBit ns id (step st) = presentBit ns id st := by
            simp [presentBit, hcache]
          have hw : writeCount ns id (step st).queue = writeCount ns id rest := by
            rw [hqu]
            simp [writeCount, countP_enqueue, isWriteFor]
          have hhead : isWriteFor ns id (t, Task.pollTick ns' wid id' startTime timeoutMs)
              = false := by
            simp [isWriteFor]
          have hwq : writeCount ns id st.queue = writeCount ns id rest := by
            rw [hq]
            simp [writeCount, List.countP_cons, hhead]
          unfold potential
          rw [hres, hw, hwq, hpres]

theorem run_potential (ns : Ns) (id : Nat) (fuel : Nat) (st : SimState) :
    potential ns id (run fuel st) ≤ potential ns id st := by
  induction fuel generalizing st with
  | zero => simp [run]
  | succ f ih =>
    cases hq : st.queue with
    | nil => simp [run, hq]
    | cons hd tl =>
      have : run (f + 1) st = run f (step st) := by simp [run, hq]
      rw [this]
      exact le_trans (ih (step st)) (step_potential ns id st)

/-- C4. Over any pending task sequence `q0` — any interleaving of
listener writes, wait starts, poll ticks and cleanups — started with
empty tables and an empty resolution log, the number of wait resolutions
that consume an entry for a given `(ns, id)` never exceeds the number of
listener writes for that `(ns, id)` in the sequence: each inserted
outcome is returned to at most one waiter (a successful match deletes the
entry in the same atomic event-loop step). -/
theorem each_write_consumed_at_most_once (ns : Ns) (id : Nat)
    (q0 : List (Nat × Task)) (fuel : Nat) :
    matchCount ns id (run fuel ⟨[], [], q0, []⟩).results ≤ writeCount ns id q0 := by
  have h := run_potential ns id fuel ⟨[], [], q0, []⟩
  have hp : potential ns id ⟨[], [], q0, []⟩ = writeCount ns id q0 := by
    simp [potential, matchCount, presentBit, cacheOf_mk_nil, mapGet]
  have hla : matchCount ns id (run fuel ⟨[], [], q0, []⟩).results
      ≤ potential ns id (run fuel ⟨[], [], q0, []⟩) := by
    simp [potential]
    omega
  omega

/-- The module-level listener guard and the number of
`maaService.onCallback(...)` subscriptions that have been installed. -/
structure ListenerState where
  globalListenerStarted : Bool
  onCallbackSubscriptions : Nat
deriving DecidableEq, Repr

/-- `startGlobalCallbackListener` from the source: return immediately when
`globalListenerStarted` is set; otherwise set it and install one
`maaService.onCallback` subscription. -/
def startGlobalCallbackListener (s : ListenerState) : ListenerState :=
  if s.globalListenerStarted then s
  else { globalListenerStarted := true,
         onCallbackSubscriptions := s.onCallbackSubscriptions + 1 }

/-- Module-load state: `globalListenerStarted = false`, nothing subscribed. -/
def initialListenerState : ListenerState := ⟨false, 0⟩

/-- The state after `n` calls of `startGlobalCallbackListener` from module
load. -/
def startCalls : Nat → ListenerState
  | 0 => initialListenerState
  | n + 1 => startGlobalCallbackListener (startCalls n)

/-- C7. Calling `startGlobalCallbackListener` any number `n ≥ 1` of times
installs exactly one `maaService.onCallback` subscription, and every call
after the first is a no-op (the state is a fixed point), so no event can
be delivered to two subscriptions. -/
theorem startGlobalCallbackListener_idempotent (n : Nat) (h : 1 ≤ n) :
    (startCalls n).onCallbackSubscriptions = 1 ∧
    startGlobalCallbackListener (startCalls n) = startCalls n := by
  have key : ∀ m, startCalls (m + 1) = ⟨true, 1⟩ := by
    intro m
    induction m with
    | zero => rfl
    | succ k ih =>
      have : startCalls (k + 1 + 1) = startGlobalCallbackListener (startCalls (k + 1)) := rfl
      rw [this, ih]
      rfl
  obtain ⟨m, rfl⟩ : ∃ m, n = m + 1 := ⟨n - 1, by omega⟩
  rw [key m]
  exact ⟨rfl, rfl⟩

/-- C7 witness: three calls leave exactly one subscription and a fourth
call changes nothing. -/
theorem startGlobalCallbackListener_idempotent_witness :
    (startCalls 3).onCallbackSubscriptions = 1 ∧
    startGlobalCallbackListener (startCalls 3) = startCalls 3 :=
  startGlobalCallbackListener_idempotent 3 (by decide)

/-- The `details` payload of an incoming callback, as used by the
listener: the two optional correlation-id fields it reads. -/
structure CallbackDetails where
  ctrl_id : Option Nat
  res_id : Option Nat
deriving DecidableEq, Repr

/-- The module caches together with the keys whose deferred deletion the
listener has scheduled (each with delay `CACHE_CLEANUP_TIMEOUT`). -/
structure CachesState where
  ctrlCallbackCache : CacheMap
  resCallbackCache : CacheMap
  pendingCleanups : List (Ns × Nat)
deriving DecidableEq, Repr

/-- The body of the `maaService.onCallback` handler installed by
`startGlobalCallbackListener`, mirroring its two independent blocks: if
`details.ctrl_id` is present and the message is the controller terminal
kind, set the controller cache and schedule a deletion of that key; then
the same for `details.res_id` with the resource terminal kinds.  Any
other message kind leaves the state untouched. -/
def onCallbackEvent (message : String) (details : CallbackDetails)
    (st : CachesState) : CachesState :=
  let st1 :=
    match details.ctrl_id with
    | some cid =>
      if message = "Controller.Action.Succeeded" then
        { st with ctrlCallbackCache := mapSet st.ctrlCallbackCache cid .succeeded,
                  pendingCleanups := st.pendingCleanups ++ [(.ctrl, cid)] }
      else if message = "Controller.Action.Failed" then
        { st with ctrlCallbackCache := mapSet st.ctrlCallbackCache cid .failed,
                  pendingCleanups := st.pendingCleanups ++ [(.ctrl, cid)] }
      else st
    | none => st
  match details.res_id with
  | some rid =>
    if message = "Resource.Loading.Succeeded" then
      { st1 with resCallbackCache := mapSet st1.resCallbackCache rid .succeeded,
                 pendingCleanups := st1.pendingCleanups ++ [(.res, rid)] }
    else if message = "Resource.Loading.Failed" then
      { st1 with resCallbackCache := mapSet st1.resCallbackCache rid .failed,
                 pendingCleanups := st1.pendingCleanups ++ [(.res, rid)] }
    else st1
  | none => st1

/-- C8. The listener writes into a namespace's table exactly when that
namespace's id field is present and the message kind is that namespace's
terminal kind: a present `ctrl_id` with `Controller.Action.Succeeded` /
`Failed` sets the controller cache (and likewise `res_id` with
`Resource.Loading.*` for the resource cache); an absent id field or a
non-terminal kind leaves that cache unchanged; a message kind that is
terminal for neither namespace leaves the whole state unchanged (and is
not an error — the handler is total). -/
theorem listener_writes_exactly_terminal (message : String) (d : CallbackDetails)
    (st : CachesState) :
    (∀ cid, d.ctrl_id = some cid → message = "Controller.Action.Succeeded" →
      (onCallbackEvent message d st).ctrlCallbackCache
        = mapSet st.ctrlCallbackCache cid .succeeded) ∧
    (∀ cid, d.ctrl_id = some cid → message = "Controller.Action.Failed" →
      (onCallbackEvent message d st).ctrlCallbackCache
        = mapSet st.ctrlCallbackCache cid .failed) ∧
    (d.ctrl_id = none →
      (onCallbackEvent message d st).ctrlCallbackCache = st.ctrlCallbackCache) ∧
    (message ≠ "Controller.Action.Succeeded" → message ≠ "Controller.Action.Failed" →
      (onCallbackEvent message d st).ctrlCallbackCache = st.ctrlCallbackCache) ∧
    (∀ rid, d.res_id = some rid → message = "Resource.Loading.Succeeded" →
      (onCallbackEvent message d st).resCallbackCache
        = mapSet st.resCallbackCache rid .succeeded) ∧
    (∀ rid, d.res_id = some rid → message = "Resource.Loading.Failed" →
      (onCallbackEvent message d st).resCallbackCache
        = mapSet st.resCallbackCache rid .failed) ∧
    (d.res_id = none →
      (onCallbackEvent message d st).resCallbackCache = st.resCallbackCache) ∧
    (message ≠ "Resource.Loading.Succeeded" → message ≠ "Resource.Loading.Failed" →
      (onCallbackEvent message d st).resCallbackCache = st.resCallbackCache) ∧
    (message ≠ "Controller.Action.Succeeded" → message ≠ "Controller.Action.Failed" →
      message ≠ "Resource.Loading.Succeeded" → message ≠ "Resource.Loading.Failed" →
      onCallbackEvent message d st = st) := by
  refine ⟨?_, ?_, ?_, ?_, ?_, ?_, ?_, ?_, ?_⟩
  · intro cid hcid hm
    subst hm
    cases hr : d.res_id <;> simp [onCallbackEvent, hcid, hr]
  · intro cid hcid hm
    subst hm
    cases hr : d.res_id <;> simp [onCallbackEvent, hcid, hr]
  · intro hcid
    cases hr : d.res_id <;>
      simp [onCallbackEvent, hcid, hr] <;>
      split_ifs <;> simp
  · intro h1 h2
    cases hc : d.ctrl_id <;> cases hr : d.res_id <;>
      simp [onCallbackEvent, hc, hr, h1, h2] <;>
      split_ifs <;> simp
  · intro rid hrid hm
    subst hm
    cases hc : d.ctrl_id <;> simp [onCallbackEvent, hc, hrid]
  · intro rid hrid hm
    subst hm
    cases hc : d.ctrl_id <;> simp [onCallbackEvent, hc, hrid]
  · intro hrid
    cases hc : d.ctrl_id <;>
      simp [onCallbackEvent, hc, hrid] <;>
      split_ifs <;> simp
  · intro h1 h2
    cases hc : d.ctrl_id <;> cases hr : d.res_id <;>
      simp [onCallbackEvent, hc, hr, h1, h2] <;>
      split_ifs <;> simp
  · intro h1 h2 h3 h4
    cases hc : d.ctrl_id <;> cases hr : d.res_id <;>
      simp [onCallbackEvent, hc, hr, h1, h2, h3, h4]

/-- The default value of the `timeoutMs` parameter of the wait operation
of each namespace: both `waitForCtrlResult` and `waitForResResult` declare
`timeoutMs: number = 30000`. -/
def defaultTimeoutMs : Ns → Nat
  | .ctrl => 30000
  | .res => 30000

/-- C9 counterexample: the claim says the default timeout is "10 to 30
seconds depending on the namespace", i.e. that controller actions and
resource loads get different defaults — but the two namespaces' defaults
are identical (both 30000 ms), so the default does not depend on the
namespace. -/
theorem defaultTimeout_does_not_depend_on_namespace :
    defaultTimeoutMs .ctrl = defaultTimeoutMs .res := rfl

/-- C9 (amended). When the caller omits the timeout argument, both wait
operations use the same default timeout of 30000 ms (30 seconds). -/
theorem defaultTimeout_is_30s (ns : Ns) : defaultTimeoutMs ns = 30000 := by
  cases ns <;> rfl

end MXU
